import Mathlib

/-!
Verification of the StepFly DAG execution engine against its specification.

The definitions below are a shallow embedding of the Python sources:
  * `schedule_tool.py`  — edge-driven scheduler helpers and the verdict/sweep
    steps of the monitoring loop;
  * `incident_tsg_loader.py` — PlanDAG loading into Edge_Status / Node_Status;
  * `memory.py`         — the key-addressed record store and the snippet store;
  * `executor.py`       — the worker ReAct loop (`execute_step`);
  * `base_plugin.py` / `sql_query_tool.py` — the plugin adapter and the SQL tool.

Python dicts keyed by strings are modelled as association lists, JSON string
fields as `String`, nullable fields as `Option`, and `raise` as `Except.error`.
Statuses are the literal strings used by the code ("pending", "enabled", ...).
-/

namespace StepFly

/-! ### Transparent string primitives

Python string operations used by the embedded code, implemented by structural
recursion over the character list so that every concrete theorem below can be
checked by evaluation.  All strings handled by the engine are ASCII, for which
these agree with the Python semantics. -/

/-- Python `str.lower` (ASCII range). -/
def pyLower (s : String) : String :=
  ⟨s.data.map Char.toLower⟩

/-- Python `str.startswith`. -/
def pyStartsWith (s pfx : String) : Bool :=
  pfx.data.isPrefixOf s.data

/-- Python whitespace for `str.strip`. -/
def isPySpace (c : Char) : Bool :=
  c = ' ' || c = '\t' || c = '\n' || c = '\r'

/-- Python `str.strip()`. -/
def pyStrip (s : String) : String :=
  ⟨((s.data.dropWhile isPySpace).reverse.dropWhile isPySpace).reverse⟩

/-- Worker loop of `pySplitOn`; `fuel` bounds the scan (any bound at least the
    text length is exact). -/
def splitLoop (sep : List Char) : Nat → List Char → List Char → List (List Char)
  | _, [], acc => [acc.reverse]
  | 0, l, acc => [acc.reverse ++ l]
  | fuel + 1, c :: rest, acc =>
    if sep ≠ [] ∧ sep.isPrefixOf (c :: rest) then
      acc.reverse :: splitLoop sep fuel ((c :: rest).drop sep.length) []
    else
      splitLoop sep fuel rest (c :: acc)

/-- Python `str.split(sep)` for a nonempty separator. -/
def pySplitOn (s sep : String) : List String :=
  if sep = "" then [s]
  else (splitLoop sep.data s.data.length s.data []).map (fun l => ⟨l⟩)

/-- Worker loop of `pyReplace`. -/
def replaceLoop (pat subst : List Char) : Nat → List Char → List Char
  | _, [] => []
  | 0, l => l
  | fuel + 1, c :: rest =>
    if pat ≠ [] ∧ pat.isPrefixOf (c :: rest) then
      subst ++ replaceLoop pat subst fuel ((c :: rest).drop pat.length)
    else
      c :: replaceLoop pat subst fuel rest

/-- Python `str.replace(pat, subst)` for a nonempty pattern. -/
def pyReplace (s pat subst : String) : String :=
  ⟨replaceLoop pat.data subst.data s.data.length s.data⟩

/-- An entry of the Edge_Status table: `{edge, status, condition}`. -/
structure EdgeS where
  edge : String
  status : String
  condition : String
 deriving Repr, DecidableEq

/-- A reference to an edge inside a node's `input_edges` / `output_edges`
    (`{edge, condition}`; `condition` may be absent in the JSON). -/
structure EdgeRef where
  edge : String
  condition : Option String := none
 deriving Repr, DecidableEq

/-- The verdict payload `{result, status, set_edge_status}` returned by a worker.
    `set_edge_status` is `none` when the worker provided no edge updates
    (Python `None`); otherwise it is the dict as an association list. -/
structure Verdict where
  result : String := ""
  status : String
  set_edge_status : Option (List (String × String)) := none
 deriving Repr, DecidableEq

/-- An entry of the Node_Status table, as built by `_load_plandag` and mutated by
    the scheduler.  In the source the `result` field stores `json.dumps` of the
    verdict; we keep the verdict itself, its serialization being inspected by no
    claim. -/
structure NodeS where
  node : String
  description : String := ""
  input_edges : List EdgeRef := []
  output_edges : List EdgeRef := []
  status : String := "pending"
  result : Option Verdict := none
  executor_id : Option String := none
 deriving Repr, DecidableEq

/-- The set of output-edge names of a node (`set(e.get("edge") for e in output_edges)`);
    list membership models set membership. -/
def outputEdgeNames (n : NodeS) : List String :=
  n.output_edges.map (·.edge)

/-- The set of input-edge names of a node. -/
def inputEdgeNames (n : NodeS) : List String :=
  n.input_edges.map (·.edge)

/-- Embedding of `_set_all_output_edges_disabled` (schedule_tool.py): every entry of
    Edge_Status whose name occurs among the node's output edges gets status
    "disabled"; all other entries are untouched. -/
def setAllOutputEdgesDisabled (node : NodeS) (edges : List EdgeS) : List EdgeS :=
  edges.map (fun e =>
    if e.edge ∈ outputEdgeNames node then { e with status := "disabled" } else e)

/-- Embedding of `_are_all_input_edges_disabled` (schedule_tool.py): raises when the
    node has no input edges; otherwise true iff no Edge_Status entry named by an
    input edge has a status other than "disabled". -/
def areAllInputEdgesDisabled (node : NodeS) (edges : List EdgeS) : Except String Bool :=
  if node.input_edges = [] then
    .error ("Node " ++ node.node ++ " has no input edges defined, cannot check for disabled status.")
  else
    .ok (edges.all (fun e =>
      if e.edge ∈ inputEdgeNames node then e.status == "disabled" else true))

/-- The body of the `for edge in edge_status` loop of `_should_trigger_node`:
    accumulate `(any_pending, any_enabled)` over the entries named by input edges. -/
def triggerScanStep (names : List String) (acc : Bool × Bool) (e : EdgeS) : Bool × Bool :=
  if e.edge ∈ names then
    (acc.1 || (e.status == "pending"), acc.2 || (e.status == "enabled"))
  else acc

/-- Embedding of `_should_trigger_node` (schedule_tool.py).  Returns
    `(is_triggering, is_end_node)`.  The single pass over Edge_Status accumulating
    `any_pending` / `any_enabled` is modelled by a fold.  Note the source's special
    case: a node whose lowercased name is "end" is triggerable as soon as any
    input edge is enabled, pending inputs notwithstanding. -/
def shouldTriggerNode (node : NodeS) (edges : List EdgeS) : Except String (Bool × Bool) :=
  if node.input_edges = [] then
    .error ("Node " ++ node.node ++ " has no input edges defined, cannot check for triggering status.")
  else
    let scan := edges.foldl (triggerScanStep (inputEdgeNames node)) (false, false)
    let anyPending := scan.1
    let anyEnabled := scan.2
    let isEndNode := pyLower node.node == "end"
    if isEndNode && anyEnabled then .ok (true, true)
    else if !anyPending && anyEnabled then .ok (true, false)
    else .ok (false, false)

/-- Helper for `_update_output_edges`: set the status of the first Edge_Status entry
    named `name` (the inner `for ... break` loop); `none` when no entry matches. -/
def setFirstEdge (name newStatus : String) : List EdgeS → Option (List EdgeS)
  | [] => none
  | e :: rest =>
    if e.edge = name then some ({ e with status := newStatus } :: rest)
    else (setFirstEdge name newStatus rest).map (e :: ·)

/-- Embedding of `_update_output_edges` (schedule_tool.py): apply each
    `(edge_name, new_status)` pair of the worker's map in order; raise
    `ValueError` as soon as a named edge is absent from Edge_Status. -/
def updateOutputEdges (edges : List EdgeS) : List (String × String) → Except String (List EdgeS)
  | [] => .ok edges
  | (name, newStatus) :: rest =>
    match setFirstEdge name newStatus edges with
    | none => .error ("Edge \x27" ++ name ++ "\x27 not found in Edge_Status")
    | some edges' => updateOutputEdges edges' rest

/-- Embedding of the verdict-application step of `ScheduleTool._monitoring_loop`:
    walk Node_Status, and at every node whose name matches the finished worker's
    node set the node status ("finished" when the verdict is completed, "failed"
    otherwise) and the stored result, then either apply the worker's
    `set_edge_status` map (`_update_output_edges`, completed) or disable every
    output edge (`_set_all_output_edges_disabled`, failed).  The timeout path feeds
    this same code a synthetic failed verdict with no `set_edge_status` key, which
    `.get(..., {})` turns into the empty map. -/
def applyExecutorResult (nodeName : String) (verdict : Verdict) :
    List NodeS → List EdgeS → Except String (List NodeS × List EdgeS)
  | [], edges => .ok ([], edges)
  | nd :: rest, edges =>
    if nd.node = nodeName then
      let nodeStat := if verdict.status == "completed" then "finished" else "failed"
      let nd' := { nd with status := nodeStat, result := some verdict }
      if nodeStat == "finished" then
        match updateOutputEdges edges (verdict.set_edge_status.getD []) with
        | .error e => .error e
        | .ok edges' =>
          (applyExecutorResult nodeName verdict rest edges').map (fun p => (nd' :: p.1, p.2))
      else
        (applyExecutorResult nodeName verdict rest (setAllOutputEdgesDisabled nd edges)).map
          (fun p => (nd' :: p.1, p.2))
    else
      (applyExecutorResult nodeName verdict rest edges).map (fun p => (nd :: p.1, p.2))

/-- Outcome of the candidate sweep of `_monitoring_loop` for one pending node. -/
inductive SweepResult
  | trigger (isEndNode : Bool)
  | skipped (node : NodeS) (edges : List EdgeS)
  | noChange
 deriving Repr, DecidableEq

/-- Embedding of the candidate-sweep step of `_monitoring_loop` for a single pending
    node: if `_should_trigger_node` reports triggerable and either it is the end
    node or capacity remains below the concurrency cap, the node is queued for
    dispatch; otherwise, if every input edge is disabled, the node is marked
    "skipped" and all its output edges are disabled. -/
def sweepNode (node : NodeS) (edges : List EdgeS) (hasCapacity : Bool) : Except String SweepResult :=
  match shouldTriggerNode node edges with
  | .error e => .error e
  | .ok (isTriggering, isEndNode) =>
    if isTriggering && (isEndNode || hasCapacity) then
      .ok (.trigger isEndNode)
    else
      match areAllInputEdgesDisabled node edges with
      | .error e => .error e
      | .ok true =>
        .ok (.skipped { node with status := "skipped" } (setAllOutputEdgesDisabled node edges))
      | .ok false => .ok .noChange

/-! ## PlanDAG loading (`IncidentTSGLoader._load_plandag`) -/

/-- A node of the PlanDAG file proper: `{node, description, input_edges, output_edges, status?}`. -/
structure PlanNode where
  node : String
  description : String := ""
  input_edges : List EdgeRef := []
  output_edges : List EdgeRef := []
  status : Option String := none
 deriving Repr, DecidableEq

/-- `edge_info.get("condition", "none")`. -/
def condOf (r : EdgeRef) : String :=
  r.condition.getD "none"

/-- One step of edge collection: append a "pending" Edge_Status entry for every
    edge reference with a truthy (nonempty) name not seen before.  The state is
    `(all_edges, edge_status)`. -/
def addEdgeRefs (st : List String × List EdgeS) (refs : List EdgeRef) : List String × List EdgeS :=
  refs.foldl (fun st r =>
    if r.edge ≠ "" ∧ r.edge ∉ st.1 then
      (r.edge :: st.1, st.2 ++ [{ edge := r.edge, status := "pending", condition := condOf r }])
    else st) st

/-- The edge-collection pass of `_load_plandag`: for each node, its output edges
    are scanned first, then its input edges. -/
def collectEdges (nodes : List PlanNode) : List EdgeS :=
  (nodes.foldl (fun st n => addEdgeRefs (addEdgeRefs st n.output_edges) n.input_edges) ([], [])).2

/-- Set the status of the first Edge_Status entry named `name` to "enabled"
    (the `for edge in edge_status: ... break` loop of `_load_plandag`). -/
def enableFirst (name : String) : List EdgeS → List EdgeS
  | [] => []
  | e :: rest =>
    if e.edge = name then { e with status := "enabled" } :: rest
    else e :: enableFirst name rest

/-- Enable every (truthy-named) output edge of the start node. -/
def enableStartEdges (start : PlanNode) (edges : List EdgeS) : List EdgeS :=
  start.output_edges.foldl (fun es r => if r.edge ≠ "" then enableFirst r.edge es else es) edges

/-- `start_node["status"] = "finished"` mutates the node dict shared with
    `plan_dag_nodes`; reflected here by updating the first node whose lowercased
    name is "start". -/
def setFirstStartFinished : List PlanNode → List PlanNode
  | [] => []
  | n :: rest =>
    if pyLower n.node = "start" then { n with status := some "finished" } :: rest
    else n :: setFirstStartFinished rest

/-- The Node_Status entry built from a plan node: status defaults to "pending",
    `result` and `executor_id` start as null. -/
def toNodeS (n : PlanNode) : NodeS :=
  { node := n.node, description := n.description, input_edges := n.input_edges,
    output_edges := n.output_edges, status := n.status.getD "pending",
    result := none, executor_id := none }

/-- Embedding of the core of `IncidentTSGLoader._load_plandag`: collect all
    referenced edges as "pending", require a start node (case-insensitive),
    mark it finished, enable its output edges, and build Node_Status.  Returns
    the stored `(Edge_Status, Node_Status)` pair. -/
def loadPlanDag (nodes : List PlanNode) : Except String (List EdgeS × List NodeS) :=
  let edgeStatus := collectEdges nodes
  match nodes.find? (fun n => pyLower n.node == "start") with
  | none => .error "No start node found in the PlanDAG. Please ensure a start node is defined."
  | some start =>
    .ok (enableStartEdges start edgeStatus, (setFirstStartFinished nodes).map toNodeS)

/-! ## Shared memory (`memory.py`): key-addressed records and code snippets -/

/-- An inline record of the `data` collection.  Only the fields the claims touch
    are kept: the payload, the `data_type`, the `description` and the
    `metadata.key` entry (if any).  `id` stands for the generated UUID. -/
structure DataRecord (α : Type) where
  id : Nat
  data : α
  data_type : String
  description : String
  mkey : Option String
 deriving Repr, DecidableEq

/-- The `data` collection plus a fresh-id supply.  `find_one` is modelled as the
    first list element matching, insertion as appending. -/
structure MemStore (α : Type) where
  recs : List (DataRecord α) := []
  nextId : Nat := 0
 deriving Repr, DecidableEq

/-- `find_one({"metadata.key": key})`. -/
def findOneByKey (st : MemStore α) (key : String) : Option (DataRecord α) :=
  st.recs.find? (fun r => r.mkey = some key)

/-- Embedding of `Memory.add_data` (inline payload path) with `metadata = {"key": key}`
    when a key is given: insert a fresh record. -/
def addData (st : MemStore α) (data : α) (dataType desc : String) (key : Option String) :
    MemStore α :=
  { recs := st.recs ++ [{ id := st.nextId, data := data, data_type := dataType,
                          description := desc, mkey := key }],
    nextId := st.nextId + 1 }

/-- Embedding of `Memory.get_data_by_key`: payload of the first record whose
    `metadata.key` matches, else null. -/
def getDataByKey (st : MemStore α) (key : String) : Option α :=
  (findOneByKey st key).map (·.data)

/-- Embedding of `Memory.update_data_by_key`: when a record with the key exists,
    delete every record with that key and re-add the payload (keeping the old
    `data_type`/`description` when none are supplied); otherwise create it. -/
def updateDataByKey (st : MemStore α) (key : String) (data : α)
    (dataType desc : Option String) : MemStore α :=
  match findOneByKey st key with
  | some existing =>
    let st' : MemStore α :=
      { st with recs := st.recs.filter (fun r => ¬ r.mkey = some key) }
    addData st' data (dataType.getD existing.data_type) (desc.getD existing.description) (some key)
  | none =>
    addData st data (dataType.getD "new_data") (desc.getD ("Data with key: " ++ key)) (some key)

/-- The `code_snippets` collection: id-addressed immutable SQL text, plus the
    fresh-id supply for `store_code_snippet`. -/
structure SnippetStore where
  snippets : List (String × String) := []
  fresh : List String := []
 deriving Repr, DecidableEq

/-- Embedding of `Memory.store_code_snippet`: mint the next id (a UUID in the
    source, drawn here from the `fresh` supply) and insert the code under it. -/
def storeCodeSnippet (st : SnippetStore) (code : String) : String × SnippetStore :=
  match st.fresh with
  | [] => ("", st)
  | id :: rest => (id, { snippets := st.snippets ++ [(id, code)], fresh := rest })

/-- Embedding of `Memory.get_code_snippet`: the stored code, or null. -/
def getCodeSnippet (st : SnippetStore) (snippetId : String) : Option String :=
  (st.snippets.find? (fun p => p.1 = snippetId)).map (·.2)

/-! ## The worker ReAct loop (`Executor.execute_step`) -/

/-- The `parameters` object of a parsed LLM response.  The loop reads the fields
    `result`, `status` and `set_edge_status` (each possibly absent); any other
    keyword arguments, forwarded verbatim to the invoked tool, are kept in
    `extra` (the claims only involve string-valued tool parameters). -/
structure ActionParams where
  result : Option String := none
  status : Option String := none
  set_edge_status : Option (List (String × String)) := none
  extra : List (String × String) := []
 deriving Repr, DecidableEq

/-- A successfully parsed LLM response `{thought, action, parameters}`. -/
structure ParsedResponse where
  thought : String := ""
  action : String
  parameters : ActionParams := {}
 deriving Repr, DecidableEq

/-- One LLM answer as seen by the retry loop: either text that
    `json.loads` rejects, or a parsed response together with its (fence-stripped)
    source text. -/
inductive LLMTurn
  | malformed (raw : String)
  | parsed (raw : String) (resp : ParsedResponse)
 deriving Repr, DecidableEq

/-- A conversation entry appended by `_record_response` / `_record_observation`. -/
structure LogEntry where
  role : String
  content : String
 deriving Repr, DecidableEq

/-- `json.dumps` of the response synthesized for the `end` node. -/
def endResponseRaw : String :=
  "\x7b\"thought\": \"No further actions required. Ending step execution.\", \"action\": \"finish_step\", \"parameters\": \x7b\"result\": \"The full TSG execution completed\", \"status\": \"completed\", \"set_edge_status\": \x7b\x7d\x7d\x7d"

/-- The parsed form of the response synthesized for the `end` node. -/
def endResponseParsed : ParsedResponse :=
  { thought := "No further actions required. Ending step execution.",
    action := "finish_step",
    parameters := { result := some "The full TSG execution completed",
                    status := some "completed",
                    set_edge_status := some [] } }

/-- `json.dumps` of the response synthesized when JSON decoding fails for every retry. -/
def decodeFailedRaw : String :=
  "\x7b\"thought\": \"Failed to decode LLM response after multiple attempts.\", \"action\": \"finish_step\", \"parameters\": \x7b\"result\": \"LLM response decoding failed\", \"status\": \"failed\", \"set_edge_status\": \x7b\x7d\x7d\x7d"

/-- The parsed form of the decode-failure response. -/
def decodeFailedParsed : ParsedResponse :=
  { thought := "Failed to decode LLM response after multiple attempts.",
    action := "finish_step",
    parameters := { result := some "LLM response decoding failed",
                    status := some "failed",
                    set_edge_status := some [] } }

/-- The JSON-decode retry loop of `execute_step`: consume LLM answers (the oracle
    `oracle`, indexed by call number `k`) until one parses, for at most `fuel`
    attempts (`max_retry_number`); when the last attempt is still malformed,
    return the synthesized failed `finish_step`.  Yields the recorded response
    text, its parsed form, and the next oracle index.  (The `fuel = 0` case is
    unreachable for the positive caps the code is run with.) -/
def llmRetry (oracle : Nat → LLMTurn) : Nat → Nat → String × ParsedResponse × Nat
  | k, 0 => (decodeFailedRaw, decodeFailedParsed, k)
  | k, fuel + 1 =>
    match oracle k with
    | .parsed raw resp => (raw, resp, k + 1)
    | .malformed _ =>
      if fuel = 0 then (decodeFailedRaw, decodeFailedParsed, k + 1)
      else llmRetry oracle (k + 1) fuel

/-- `observation.split("SQL query snippet stored with ID: ")[-1].strip()`. -/
def extractSnippetId (obs : String) : String :=
  pyStrip ((pySplitOn obs "SQL query snippet stored with ID: ").getLastD "")

/-- The parameters of the deferred `sql_query_tool` invocation synthesized by the
    worker loop after a plugin call. -/
def sqlFollowupParams (sid stepName : String) : ActionParams :=
  { extra := [("snippet_id", sid),
              ("result_description", "Result of " ++ stepName ++ " step execution")] }

/-- `json.dumps` of the assistant message synthesized for the deferred SQL call
    (for payloads needing no JSON string escaping). -/
def mkSqlFollowupMessage (sid stepName : String) : String :=
  "\x7b\"thought\": \"I will execute the SQL query using the plugin with the provided snippet ID: "
    ++ sid ++ "\", \"action\": \"sql_query_tool\", \"parameters\": \x7b\"snippet_id\": \""
    ++ sid ++ "\", \"result_description\": \"Result of " ++ stepName
    ++ " step execution\"\x7d\x7d"

/-- Result of one execution of the `while` body of `execute_step`:
    either `finish_step` was reached (with the verdict) or the loop continues.
    Both carry the conversation entries recorded during the body and the next
    oracle index. -/
inductive BodyResult
  | finish (v : Verdict) (entries : List LogEntry) (k : Nat)
  | next (entries : List LogEntry) (k : Nat)
 deriving Repr, DecidableEq

/-- One execution of the loop body of `execute_step`.  `execAct` stands for
    `_execute_action` (a total function: tool dispatch never raises to the loop).
    For the `end` step the response is synthesized without an LLM call; otherwise
    the JSON retry loop runs.  The response is recorded, `finish_step` exits with
    the verdict, any other action is executed and its observation recorded, and a
    `plugin_`-prefixed action triggers the deferred SQL dispatch: a synthesized
    assistant message and the SQL observation are recorded in the same body,
    before any further LLM call. -/
def loopBody (execAct : String → ActionParams → String) (stepName : String)
    (oracle : Nat → LLMTurn) (maxRetry : Nat) (k : Nat) : BodyResult :=
  let step := if pyLower stepName == "end" then (endResponseRaw, endResponseParsed, k)
              else llmRetry oracle k maxRetry
  let raw := step.1
  let resp := step.2.1
  let k' := step.2.2
  let log1 : List LogEntry := [{ role := "assistant", content := raw }]
  if resp.action == "finish_step" then
    .finish { result := resp.parameters.result.getD "Step completed",
              status := resp.parameters.status.getD "completed",
              set_edge_status := some (resp.parameters.set_edge_status.getD []) }
      log1 k'
  else
    let obs := execAct resp.action resp.parameters
    let log2 := log1 ++ [{ role := "user", content := "Observation: " ++ obs }]
    if pyStartsWith resp.action "plugin_" then
      let sid := extractSnippetId obs
      let sqlObs := execAct "sql_query_tool" (sqlFollowupParams sid stepName)
      .next (log2 ++ [{ role := "assistant", content := mkSqlFollowupMessage sid stepName },
                      { role := "user", content := "Observation: " ++ sqlObs }]) k'
    else
      .next log2 k'

/-- The outcome of `execute_step`: the final verdict, the conversation entries
    recorded by the loop (the system/user priming that precedes the loop is not
    modelled), the number of LLM calls made and of loop-body executions. -/
structure StepOutcome where
  verdict : Verdict
  log : List LogEntry
  llmCalls : Nat
  iterations : Nat
 deriving Repr, DecidableEq

/-- The `while current_inter < max_iterations` loop: `fuel` is the number of body
    executions still permitted (`max_iterations - current_inter`).  On exhaustion
    without a `finish_step`, the fallback verdict is produced: a diagnostic
    result, status "failed", and `set_edge_status = None`. -/
def execLoopAux (execAct : String → ActionParams → String) (stepName : String)
    (oracle : Nat → LLMTurn) (maxRetry : Nat) :
    Nat → Nat → Nat → List LogEntry → StepOutcome
  | 0, k, iters, log =>
    { verdict := { result := "Step " ++ stepName ++ " was executed, but no finish_step action was provided.",
                   status := "failed", set_edge_status := none },
      log := log, llmCalls := k, iterations := iters }
  | fuel + 1, k, iters, log =>
    match loopBody execAct stepName oracle maxRetry k with
    | .finish v entries k' =>
      { verdict := v, log := log ++ entries, llmCalls := k', iterations := iters + 1 }
    | .next entries k' =>
      execLoopAux execAct stepName oracle maxRetry fuel k' (iters + 1) (log ++ entries)

/-- The two caps `execute_step` runs under (`executor.max_iterations`, default 10,
    and `max_retry_number`, default 3). -/
structure ExecConfig where
  maxIterations : Nat := 10
  maxRetryNumber : Nat := 3
 deriving Repr, DecidableEq

/-- Embedding of `Executor.execute_step`: run the loop body while
    `current_inter < max_iterations`, `current_inter` starting at 1 — hence at
    most `max_iterations - 1` body executions. -/
def executeStep (cfg : ExecConfig) (execAct : String → ActionParams → String)
    (stepName : String) (oracle : Nat → LLMTurn) : StepOutcome :=
  execLoopAux execAct stepName oracle cfg.maxRetryNumber (cfg.maxIterations - 1) 0 0 []

/-! ## Plugin adapter (`base_plugin.py`, `plugin_1.py`) and SQL tool (`sql_query_tool.py`) -/

/-- Python `repr` of a list of plain strings, as interpolated by the plugins'
    missing-parameter f-string. -/
def pyListRepr (xs : List String) : String :=
  "[" ++ String.intercalate ", " (xs.map (fun s => "\x27" ++ s ++ "\x27")) ++ "]"

/-- The required-parameter list of `plugin_1.py` (the other plugins follow the
    same pattern with their own lists). -/
def plugin1Required : List String :=
  ["start_time", "end_time", "region", "environment", "service_name"]

/-- `convert_timestamp` of the plugins: ISO `T`/`Z` delimiters to space-delimited. -/
def convertTimestamp (s : String) : String :=
  if s.data.contains 'T' then pyReplace (pyReplace s "T" " ") "Z" "" else s

/-- The plugins' missing-parameter message. -/
def missingParamMsg (p : String) (required : List String) : String :=
  "Missing required parameter: " ++ p ++ ". You should provide all the params: "
    ++ pyListRepr required

/-- Embedding of a plugin's `execute` (`plugin_N.py`): return the error message at
    the first required parameter absent from the kwargs; otherwise normalize the
    timestamps and render the SQL template (`self.template.format(...)`,
    abstracted as `render`). -/
def pluginExecute (required : List String) (render : List (String × String) → String)
    (kwargs : List (String × String)) : String :=
  match required.find? (fun p => (kwargs.lookup p).isNone) with
  | some p => missingParamMsg p required
  | none =>
    render (kwargs.map (fun pr =>
      if pr.1 = "start_time" ∨ pr.1 = "end_time" then (pr.1, convertTimestamp pr.2) else pr))

/-- Embedding of `PluginTool.execute` (`base_plugin.py`): run the plugin; if its
    result is an error message, return it without storing anything; otherwise
    store the snippet and return the stored-ID sentence. -/
def pluginToolExecute (required : List String) (render : List (String × String) → String)
    (store : SnippetStore) (kwargs : List (String × String)) : String × SnippetStore :=
  let snippet := pluginExecute required render kwargs
  if pyStartsWith snippet "Error:" || pyStartsWith snippet "Missing required parameter:" then
    (snippet, store)
  else
    let stored := storeCodeSnippet store snippet
    ("SQL query snippet stored with ID: " ++ stored.1, stored.2)

/-- Python truthiness of an optional string argument. -/
def truthy : Option String → Bool
  | none => false
  | some s => s ≠ ""

/-- Embedding of `SQLQueryTool.execute`: a truthy `snippet_id` is looked up in the
    snippet store — a miss (null or empty code, both falsy) yields the not-found
    error; otherwise a truthy `query_string` is used; otherwise the usage error.
    Database execution and result storage are abstracted as `runQuery`. -/
def sqlQueryToolExecute (store : SnippetStore) (runQuery : String → String)
    (queryString snippetId : Option String) : String :=
  if truthy snippetId then
    let sid := snippetId.getD ""
    match getCodeSnippet store sid with
    | some q =>
      if q == "" then "Error: SQL snippet with ID \x27" ++ sid ++ "\x27 not found in memory."
      else runQuery q
    | none => "Error: SQL snippet with ID \x27" ++ sid ++ "\x27 not found in memory."
  else if truthy queryString then
    runQuery (queryString.getD "")
  else
    "Error: Please provide either \x27query_string\x27 or \x27snippet_id\x27."

/-! ## Spec-side predicates and concrete fixtures -/

/-- Whether some Edge_Status entry named by `names` carries status `st`. -/
def anyEdgeWithStatus (names : List String) (st : String) (edges : List EdgeS) : Bool :=
  edges.any (fun e => decide (e.edge ∈ names) && (e.status == st))

/-- Trigger eligibility as the specification words it (§3 invariant 8): no input
    edge is pending and at least one input edge is enabled.  Written from the
    spec, to be compared against `shouldTriggerNode`. -/
abbrev specTriggerEligible (node : NodeS) (edges : List EdgeS) : Prop :=
  (¬ ∃ e ∈ edges, e.edge ∈ inputEdgeNames node ∧ e.status = "pending") ∧
  (∃ e ∈ edges, e.edge ∈ inputEdgeNames node ∧ e.status = "enabled")

/-- A tool dispatcher that answers every action with the empty observation. -/
def nullAct : String → ActionParams → String := fun _ _ => ""

/-- An LLM oracle whose every answer fails JSON decoding. -/
def malformedOracle : Nat → LLMTurn := fun _ => .malformed "not json"

/-- An LLM oracle that always picks a non-finishing tool action. -/
def loopOracle : Nat → LLMTurn := fun _ => .parsed "act" { action := "log_reasoning_tool" }

/-- An `end` node with one pending and one enabled input edge. -/
def endNodeC1 : NodeS :=
  { node := "end", input_edges := [{ edge := "e1" }, { edge := "e2" }] }

/-- Edge_Status for `endNodeC1`: `e1` still pending, `e2` already enabled. -/
def edgesC1 : List EdgeS :=
  [⟨"e1", "pending", "none"⟩, ⟨"e2", "enabled", "none"⟩]

/-- An interior node with a single enabled input edge. -/
def nodeW : NodeS :=
  { node := "step_2", input_edges := [{ edge := "eS_A" }], output_edges := [{ edge := "eA_B" }] }

/-- Edge_Status for `nodeW`. -/
def edgesW : List EdgeS :=
  [⟨"eS_A", "enabled", "none"⟩, ⟨"eA_B", "pending", "none"⟩]

/-- The node `step_A` of the seed scenario, with output edge `eA_B`. -/
def nodeA : NodeS :=
  { node := "step_A", input_edges := [{ edge := "eS_A" }], output_edges := [{ edge := "eA_B" }] }

/-- Edge_Status around `nodeA`. -/
def edgesA : List EdgeS :=
  [⟨"eS_A", "enabled", "none"⟩, ⟨"eA_B", "pending", "none"⟩, ⟨"eB_E", "pending", "none"⟩]

/-- A node whose input edges are all disabled. -/
def nodeSkip : NodeS :=
  { node := "step_B", input_edges := [{ edge := "eA_B" }], output_edges := [{ edge := "eB_E" }] }

/-- Edge_Status for `nodeSkip`. -/
def edgesSkip : List EdgeS :=
  [⟨"eA_B", "disabled", "none"⟩, ⟨"eB_E", "pending", "none"⟩]

/-- The seed 4-node plan `start → A → B → end` of the spec (§8). -/
def demoPlan : List PlanNode :=
  [{ node := "start", output_edges := [{ edge := "eS_A" }] },
   { node := "step_A", input_edges := [{ edge := "eS_A" }], output_edges := [{ edge := "eA_B" }] },
   { node := "step_B", input_edges := [{ edge := "eA_B" }], output_edges := [{ edge := "eB_E" }] },
   { node := "end", input_edges := [{ edge := "eB_E" }] }]

/-- The union of all edge names referenced from any node's `input_edges` or
    `output_edges`, as the specification words it (§6, round-trip law).  Written
    from the spec, to be compared against the edge names `_load_plandag` collects. -/
def referencedEdgeNames (nodes : List PlanNode) : List String :=
  nodes.flatMap (fun n => (n.output_edges ++ n.input_edges).map (·.edge))

/-- Invariant of the edge-collection state `(all_edges, edge_status)`: collected
    names are distinct, the seen-set tracks exactly the collected names, and every
    collected entry is pending. -/
def edgeStateInv (st : List String × List EdgeS) : Prop :=
  (st.2.map (·.edge)).Nodup ∧
  (∀ x, x ∈ st.1 ↔ x ∈ st.2.map (·.edge)) ∧
  (∀ e ∈ st.2, e.status = "pending")

/-- The start node of `demoPlan`. -/
def demoStart : PlanNode := { node := "start", output_edges := [{ edge := "eS_A" }] }

/-- A parsed LLM response selecting a plugin tool. -/
def pluginResp : ParsedResponse :=
  { action := "plugin_3_tool",
    parameters := { extra := [("start_time", "2024-01-01T00:00:00Z"), ("end_time", "2024-01-02T00:00:00Z")] } }

/-- An oracle whose first answer selects `plugin_3_tool`. -/
def pluginOracle : Nat → LLMTurn := fun _ => .parsed "raw_plugin" pluginResp

/-- The empty snippet store. -/
def emptySnips : SnippetStore := {}

/-- An opaque stand-in for a plugin's SQL template rendering. -/
def demoRender : List (String × String) → String := fun _ => "SELECT 1"

/-- An opaque stand-in for database execution inside `sql_query_tool`. -/
def runQueryDemo : String → String := fun _ => "query ran"

/-- The error message `plugin_1` returns when `start_time` is missing. -/
def c10ErrMsg : String := missingParamMsg "start_time" plugin1Required

/-- A dispatcher wiring the embedded plugin tool and SQL tool, over an empty
    snippet store (the plugin's error path stores nothing, so the store the
    deferred SQL call sees is still empty). -/
def demoExecAct : String → ActionParams → String := fun action p =>
  if action == "plugin_1_tool" then
    (pluginToolExecute plugin1Required demoRender emptySnips p.extra).1
  else if action == "sql_query_tool" then
    sqlQueryToolExecute emptySnips runQueryDemo (p.extra.lookup "query_string")
      (p.extra.lookup "snippet_id")
  else
    "Error: Tool \x27" ++ action ++ "\x27 not found."

/-- An oracle whose first answer invokes `plugin_1_tool` with no parameters. -/
def c10Oracle : Nat → LLMTurn := fun _ => .parsed "raw_c10" { action := "plugin_1_tool" }

/-! ## C1 — trigger eligibility -/

lemma triggerScan_eq (names : List String) (edges : List EdgeS) (a b : Bool) :
    edges.foldl (triggerScanStep names) (a, b) =
      (a || anyEdgeWithStatus names "pending" edges,
       b || anyEdgeWithStatus names "enabled" edges) := by
  induction edges generalizing a b with
  | nil => simp [anyEdgeWithStatus]
  | cons e rest ih =>
    simp only [List.foldl_cons, anyEdgeWithStatus, List.any_cons]
    rw [ih]
    unfold triggerScanStep
    by_cases h : e.edge ∈ names
    · simp [h, anyEdgeWithStatus, Bool.or_assoc]
    · simp [h, anyEdgeWithStatus]

lemma anyEdgeWithStatus_iff (names : List String) (st : String) (edges : List EdgeS) :
    anyEdgeWithStatus names st edges = true ↔
      ∃ e ∈ edges, e.edge ∈ names ∧ e.status = st := by
  simp [anyEdgeWithStatus, List.any_eq_true, beq_iff_eq]

lemma shouldTriggerNode_eq (node : NodeS) (edges : List EdgeS) (h : node.input_edges ≠ []) :
    shouldTriggerNode node edges =
      .ok (((pyLower node.node == "end")
              && anyEdgeWithStatus (inputEdgeNames node) "enabled" edges)
             || (!(anyEdgeWithStatus (inputEdgeNames node) "pending" edges)
                 && anyEdgeWithStatus (inputEdgeNames node) "enabled" edges),
           (pyLower node.node == "end")
             && anyEdgeWithStatus (inputEdgeNames node) "enabled" edges) := by
  unfold shouldTriggerNode
  rw [if_neg h]
  simp only [triggerScan_eq, Bool.false_or]
  set aP := anyEdgeWithStatus (inputEdgeNames node) "pending" edges with haP
  set aE := anyEdgeWithStatus (inputEdgeNames node) "enabled" edges with haE
  set isEnd := (pyLower node.node == "end") with hEnd
  by_cases h1 : (isEnd && aE) = true
  · simp [h1]
  · have h1' : (isEnd && aE) = false := by revert h1; cases (isEnd && aE) <;> simp
    by_cases h2 : (!aP && aE) = true
    · simp [h1', h2]
    · have h2' : (!aP && aE) = false := by revert h2; cases (!aP && aE) <;> simp
      simp [h1', h2']

/-- C1: the scheduler's trigger-eligibility check `_should_trigger_node` (amended).
    For a node with input edges the check succeeds, and eligibility holds iff at
    least one input edge is enabled AND (the node's lowercased name is "end" OR no
    input edge is pending): the code special-cases the `end` node, for which a
    pending input edge does not block triggering.  For every node not named `end`
    the claim's biconditional with the spec's predicate does hold. -/
theorem C1_trigger_characterization (node : NodeS) (edges : List EdgeS)
    (h : node.input_edges ≠ []) :
    ∃ p : Bool × Bool, shouldTriggerNode node edges = .ok p ∧
      (p.1 = true ↔
        ((∃ e ∈ edges, e.edge ∈ inputEdgeNames node ∧ e.status = "enabled") ∧
         (pyLower node.node = "end" ∨
           ¬ ∃ e ∈ edges, e.edge ∈ inputEdgeNames node ∧ e.status = "pending"))) ∧
      (pyLower node.node ≠ "end" →
        (p.1 = true ↔ specTriggerEligible node edges)) := by
  refine ⟨_, shouldTriggerNode_eq node edges h, ?_, ?_⟩
  · rw [← anyEdgeWithStatus_iff (inputEdgeNames node) "enabled" edges,
        ← anyEdgeWithStatus_iff (inputEdgeNames node) "pending" edges]
    cases hE : anyEdgeWithStatus (inputEdgeNames node) "enabled" edges <;>
    cases hP : anyEdgeWithStatus (inputEdgeNames node) "pending" edges <;>
    cases hEnd : (pyLower node.node == "end") <;>
      simp_all [beq_iff_eq, beq_eq_false_iff_ne]
  · intro hne
    have hEnd : (pyLower node.node == "end") = false := beq_eq_false_iff_ne.mpr hne
    rw [hEnd]
    rw [show specTriggerEligible node edges =
      ((¬ ∃ e ∈ edges, e.edge ∈ inputEdgeNames node ∧ e.status = "pending") ∧
       (∃ e ∈ edges, e.edge ∈ inputEdgeNames node ∧ e.status = "enabled")) from rfl]
    rw [← anyEdgeWithStatus_iff (inputEdgeNames node) "enabled" edges,
        ← anyEdgeWithStatus_iff (inputEdgeNames node) "pending" edges]
    cases hE : anyEdgeWithStatus (inputEdgeNames node) "enabled" edges <;>
    cases hP : anyEdgeWithStatus (inputEdgeNames node) "pending" edges <;>
      simp_all

/-- C1 counterexample: for the node named `end` with input edges `e1` (pending)
    and `e2` (enabled), the code reports it triggerable although the claim's
    biconditional demands ineligibility while an input edge is pending. -/
theorem C1_cx :
    shouldTriggerNode endNodeC1 edgesC1 = .ok (true, true) ∧
    ¬ specTriggerEligible endNodeC1 edgesC1 := by
  exact ⟨rfl, by decide⟩

/-- C1 witness: the characterization applied to an interior node with one enabled
    input edge. -/
theorem C1_witness :
    ∃ p : Bool × Bool, shouldTriggerNode nodeW edgesW = .ok p ∧
      (p.1 = true ↔
        ((∃ e ∈ edgesW, e.edge ∈ inputEdgeNames nodeW ∧ e.status = "enabled") ∧
         (pyLower nodeW.node = "end" ∨
           ¬ ∃ e ∈ edgesW, e.edge ∈ inputEdgeNames nodeW ∧ e.status = "pending"))) ∧
      (pyLower nodeW.node ≠ "end" →
        (p.1 = true ↔ specTriggerEligible nodeW edgesW)) :=
  C1_trigger_characterization nodeW edgesW (by decide)

/-! ## C2 — failed verdicts and skipped nodes disable all output edges -/

lemma setAll_disables (node : NodeS) (edges : List EdgeS) :
    ∀ e ∈ setAllOutputEdgesDisabled node edges,
      e.edge ∈ outputEdgeNames node → e.status = "disabled" := by
  intro e he hmem
  unfold setAllOutputEdgesDisabled at he
  rcases List.mem_map.mp he with ⟨e0, he0, rfl⟩
  by_cases h : e0.edge ∈ outputEdgeNames node
  · simp [h]
  · rw [if_neg h] at hmem
    exact absurd hmem h

lemma setAll_preserves (s : List String) (node : NodeS) (edges : List EdgeS)
    (h : ∀ e ∈ edges, e.edge ∈ s → e.status = "disabled") :
    ∀ e ∈ setAllOutputEdgesDisabled node edges, e.edge ∈ s → e.status = "disabled" := by
  intro e he hmem
  rcases List.mem_map.mp he with ⟨e0, he0, rfl⟩
  by_cases hh : e0.edge ∈ outputEdgeNames node
  · simp [hh]
  · rw [if_neg hh] at hmem ⊢
    exact h e0 he0 hmem

lemma applyExecutorResult_failed (nodeName : String) (v : Verdict)
    (hv : (v.status == "completed") = false) :
    ∀ (nodes : List NodeS) (edges : List EdgeS),
      ∃ (ns : List NodeS) (es : List EdgeS),
        applyExecutorResult nodeName v nodes edges = .ok (ns, es) ∧
        (∀ s : List String, (∀ e ∈ edges, e.edge ∈ s → e.status = "disabled") →
              (∀ e ∈ es, e.edge ∈ s → e.status = "disabled")) ∧
        (∀ nd ∈ nodes, nd.node = nodeName →
           ∀ e ∈ es, e.edge ∈ outputEdgeNames nd → e.status = "disabled") := by
  have hff : (("failed" : String) == "finished") = false := by decide
  intro nodes
  induction nodes with
  | nil =>
    intro edges
    exact ⟨[], edges, rfl, fun s h => h, by simp⟩
  | cons nd rest ih =>
    intro edges
    by_cases hmatch : nd.node = nodeName
    · obtain ⟨ns, es, hok, hpres, hprop⟩ := ih (setAllOutputEdgesDisabled nd edges)
      refine ⟨{ nd with status := "failed", result := some v } :: ns, es, ?_, ?_, ?_⟩
      · simp only [applyExecutorResult, hmatch, if_pos, hv, hff, Bool.false_eq_true,
          if_false, hok, Except.map]
      · intro s hs
        exact hpres s (setAll_preserves s nd edges hs)
      · intro nd0 hnd0 hname e he hmem
        rcases List.mem_cons.mp hnd0 with h0 | h0
        · subst h0
          exact hpres (outputEdgeNames nd0) (setAll_disables nd0 edges) e he hmem
        · exact hprop nd0 h0 hname e he hmem
    · obtain ⟨ns, es, hok, hpres, hprop⟩ := ih edges
      refine ⟨nd :: ns, es, ?_, hpres, ?_⟩
      · simp only [applyExecutorResult, hmatch, if_false, hok, Except.map]
      · intro nd0 hnd0 hname e he hmem
        rcases List.mem_cons.mp hnd0 with h0 | h0
        · subst h0; exact absurd hname hmatch
        · exact hprop nd0 h0 hname e he hmem

lemma exceptMap_snd (r : Except String (List NodeS × List EdgeS)) (x : NodeS) :
    (r.map (fun p => (x :: p.1, p.2))).map Prod.snd = r.map Prod.snd := by
  cases r <;> rfl

lemma applyExecutorResult_edges_only_status (nodeName : String) (v w : Verdict)
    (hvw : v.status = w.status) (hv : (v.status == "completed") = false) :
    ∀ nodes edges,
      (applyExecutorResult nodeName v nodes edges).map Prod.snd =
      (applyExecutorResult nodeName w nodes edges).map Prod.snd := by
  intro nodes
  have hw : (w.status == "completed") = false := hvw ▸ hv
  have hff : (("failed" : String) == "finished") = false := by decide
  induction nodes with
  | nil => intro edges; rfl
  | cons nd rest ih =>
    intro edges
    by_cases hmatch : nd.node = nodeName
    · simp only [applyExecutorResult, hmatch, if_pos, hv, hw, hff, Bool.false_eq_true, if_false,
        exceptMap_snd]
      exact ih (setAllOutputEdgesDisabled nd edges)
    · simp only [applyExecutorResult, hmatch, if_false, exceptMap_snd]
      exact ih edges

lemma sweepNode_skipped (node : NodeS) (edges : List EdgeS) (cap : Bool)
    (nd' : NodeS) (es' : List EdgeS)
    (h : sweepNode node edges cap = .ok (.skipped nd' es')) :
    nd'.status = "skipped" ∧
    ∀ e ∈ es', e.edge ∈ outputEdgeNames node → e.status = "disabled" := by
  unfold sweepNode at h
  cases hst : shouldTriggerNode node edges with
  | error msg => rw [hst] at h; cases h
  | ok p =>
    rw [hst] at h
    rcases p with ⟨t, en⟩
    simp only at h
    by_cases hb : (t && (en || cap)) = true
    · rw [if_pos hb] at h
      cases h
    · have hb' : (t && (en || cap)) = false := by revert hb; cases (t && (en || cap)) <;> simp
      rw [hb', if_neg (by simp)] at h
      cases hd : areAllInputEdgesDisabled node edges with
      | error msg => rw [hd] at h; cases h
      | ok b =>
        rw [hd] at h
        cases b
        · cases h
        · simp only [Except.ok.injEq, SweepResult.skipped.injEq] at h
          obtain ⟨h1, h2⟩ := h
          constructor
          · rw [← h1]
          · rw [← h2]
            exact setAll_disables node edges

/-- C2: when the scheduler applies a verdict whose status is not "completed",
    every Edge_Status entry named by an output edge of the finished worker's node
    ends up "disabled", and the resulting Edge_Status is identical for every
    value of the verdict's `set_edge_status` map; the candidate sweep applies the
    same disable-all pass to every node it marks "skipped". -/
theorem C2_failed_and_skipped_disable_outputs
    (v : Verdict) (m : Option (List (String × String))) (nodeName : String)
    (nodes : List NodeS) (edges : List EdgeS) (node : NodeS) (edgesB : List EdgeS)
    (cap : Bool) (hv : v.status ≠ "completed") :
    (∃ (ns : List NodeS) (es : List EdgeS),
       applyExecutorResult nodeName v nodes edges = .ok (ns, es) ∧
       (∀ nd ∈ nodes, nd.node = nodeName →
          ∀ e ∈ es, e.edge ∈ outputEdgeNames nd → e.status = "disabled") ∧
       ∃ ns₂ : List NodeS, applyExecutorResult nodeName { v with set_edge_status := m } nodes edges
                = .ok (ns₂, es)) ∧
    (∀ (nd' : NodeS) (es' : List EdgeS),
       sweepNode node edgesB cap = .ok (.skipped nd' es') →
       nd'.status = "skipped" ∧
       ∀ e ∈ es', e.edge ∈ outputEdgeNames node → e.status = "disabled") := by
  have hvb : (v.status == "completed") = false := beq_eq_false_iff_ne.mpr hv
  constructor
  · obtain ⟨ns, es, hok, _, hprop⟩ := applyExecutorResult_failed nodeName v hvb nodes edges
    obtain ⟨ns₂, es₂, hok₂, _, _⟩ :=
      applyExecutorResult_failed nodeName { v with set_edge_status := m } hvb nodes edges
    have heq := applyExecutorResult_edges_only_status nodeName v
      { v with set_edge_status := m } rfl hvb nodes edges
    rw [hok, hok₂] at heq
    simp only [Except.map, Except.ok.injEq] at heq
    refine ⟨ns, es, hok, hprop, ns₂, ?_⟩
    rw [hok₂, heq]
  · intro nd' es' hsw
    exact sweepNode_skipped node edgesB cap nd' es' hsw

/-- C2 witness: a failed verdict for `step_A` (whose map even asks to enable
    `eA_B`) and the sweep of `step_B` with all input edges disabled. -/
theorem C2_witness :
    (∃ (ns : List NodeS) (es : List EdgeS),
       applyExecutorResult "step_A"
         { result := "boom", status := "failed", set_edge_status := some [("eA_B", "enabled")] }
         [nodeA] edgesA = .ok (ns, es) ∧
       (∀ nd ∈ [nodeA], nd.node = "step_A" →
          ∀ e ∈ es, e.edge ∈ outputEdgeNames nd → e.status = "disabled") ∧
       ∃ ns₂ : List NodeS, applyExecutorResult "step_A"
           { result := "boom", status := "failed", set_edge_status := some [] }
           [nodeA] edgesA = .ok (ns₂, es)) ∧
    (∀ (nd' : NodeS) (es' : List EdgeS),
       sweepNode nodeSkip edgesSkip true = .ok (.skipped nd' es') →
       nd'.status = "skipped" ∧
       ∀ e ∈ es', e.edge ∈ outputEdgeNames nodeSkip → e.status = "disabled") :=
  C2_failed_and_skipped_disable_outputs
    { result := "boom", status := "failed", set_edge_status := some [("eA_B", "enabled")] }
    (some []) "step_A" [nodeA] edgesA nodeSkip edgesSkip true (by decide)

/-! ## C7 — UpdateOutputEdges -/

lemma setFirstEdge_none_iff (name st : String) (edges : List EdgeS) :
    setFirstEdge name st edges = none ↔ name ∉ edges.map (·.edge) := by
  induction edges with
  | nil => simp [setFirstEdge]
  | cons e rest ih =>
    simp only [setFirstEdge, List.map_cons, List.mem_cons]
    by_cases h : e.edge = name
    · simp [h]
    · rw [if_neg h]
      simp only [Option.map_eq_none', ih]
      constructor
      · intro hr hc
        rcases hc with hc | hc
        · exact h hc.symm
        · exact hr hc
      · intro hc
        exact fun hm => hc (Or.inr hm)

lemma setFirstEdge_names (name st : String) :
    ∀ (edges edges' : List EdgeS), setFirstEdge name st edges = some edges' →
      edges'.map (·.edge) = edges.map (·.edge) := by
  intro edges
  induction edges with
  | nil => intro edges' h; cases h
  | cons e rest ih =>
    intro edges' h
    simp only [setFirstEdge] at h
    by_cases hc : e.edge = name
    · rw [if_pos hc] at h
      cases h
      simp
    · rw [if_neg hc] at h
      cases hr : setFirstEdge name st rest with
      | none => rw [hr] at h; cases h
      | some l =>
        rw [hr] at h
        simp only [Option.map_some'] at h
        cases h
        simp only [List.map_cons]
        rw [ih l hr]

lemma map_upd_noop (name st : String) (l : List EdgeS) (h : name ∉ l.map (·.edge)) :
    l.map (fun e => if e.edge = name then { e with status := st } else e) = l := by
  induction l with
  | nil => rfl
  | cons e rest ih =>
    simp only [List.map_cons, List.mem_cons] at h ⊢
    push_neg at h
    rw [if_neg (fun hc => h.1 hc.symm), ih h.2]

lemma setFirstEdge_some (name st : String) (edges : List EdgeS)
    (hmem : name ∈ edges.map (·.edge)) (hnd : (edges.map (·.edge)).Nodup) :
    setFirstEdge name st edges =
      some (edges.map (fun e => if e.edge = name then { e with status := st } else e)) := by
  induction edges with
  | nil => simp at hmem
  | cons e rest ih =>
    simp only [List.map_cons, List.nodup_cons] at hnd
    simp only [setFirstEdge, List.map_cons]
    by_cases h : e.edge = name
    · rw [if_pos h, if_pos h]
      have hnr : name ∉ rest.map (·.edge) := h ▸ hnd.1
      rw [map_upd_noop name st rest hnr]
    · rw [if_neg h, if_neg h]
      have hmem' : name ∈ rest.map (·.edge) := by
        rw [List.map_cons] at hmem
        rcases List.mem_cons.mp hmem with hc | hc
        · exact absurd hc.symm h
        · exact hc
      rw [ih hmem' hnd.2]
      rfl

lemma upd_map_names (name st : String) (edges : List EdgeS) :
    (edges.map (fun e => if e.edge = name then { e with status := st } else e)).map (·.edge)
      = edges.map (·.edge) := by
  induction edges with
  | nil => rfl
  | cons e rest ih =>
    simp only [List.map_cons, ih]
    by_cases h : e.edge = name
    · rw [if_pos h]
    · rw [if_neg h]

lemma lookup_none_of_key_not_mem (name : String) (m : List (String × String))
    (h : name ∉ m.map (·.1)) : m.lookup name = none := by
  induction m with
  | nil => rfl
  | cons p rest ih =>
    simp only [List.map_cons, List.mem_cons] at h
    push_neg at h
    have hb : (name == p.1) = false := beq_eq_false_iff_ne.mpr h.1
    simp only [List.lookup, hb]
    exact ih h.2

lemma updateOutputEdges_error (edges : List EdgeS) (m : List (String × String))
    (hbad : ∃ p ∈ m, p.1 ∉ edges.map (·.edge)) :
    ∃ msg, updateOutputEdges edges m = .error msg := by
  induction m generalizing edges with
  | nil => simp at hbad
  | cons p rest ih =>
    obtain ⟨name, st⟩ := p
    by_cases h : name ∈ edges.map (·.edge)
    · have hne : setFirstEdge name st edges ≠ none := fun hnone =>
        ((setFirstEdge_none_iff name st edges).mp hnone) h
      obtain ⟨edges₁, h₁⟩ := Option.ne_none_iff_exists'.mp hne
      simp only [updateOutputEdges, h₁]
      have hnames := setFirstEdge_names name st edges edges₁ h₁
      apply ih edges₁
      obtain ⟨q, hq, hqn⟩ := hbad
      rcases List.mem_cons.mp hq with rfl | hq'
      · exact absurd h hqn
      · exact ⟨q, hq', by rw [hnames]; exact hqn⟩
    · simp only [updateOutputEdges, (setFirstEdge_none_iff name st edges).mpr h]
      exact ⟨_, rfl⟩

lemma updateOutputEdges_ok (edges : List EdgeS) (m : List (String × String))
    (hnd : (edges.map (·.edge)).Nodup) (hkeys : (m.map (·.1)).Nodup)
    (hall : ∀ p ∈ m, p.1 ∈ edges.map (·.edge)) :
    updateOutputEdges edges m =
      .ok (edges.map (fun e =>
        match m.lookup e.edge with
        | some s => { e with status := s }
        | none => e)) := by
  induction m generalizing edges with
  | nil =>
    simp only [updateOutputEdges, List.lookup_nil]
    have : edges.map (fun e =>
        match (none : Option String) with
        | some s => { e with status := s }
        | none => e) = edges := by
      simp
    rw [this]
  | cons p rest ih =>
    obtain ⟨name, st⟩ := p
    simp only [List.map_cons, List.nodup_cons] at hkeys
    have hmem : name ∈ edges.map (·.edge) := hall (name, st) (by simp)
    simp only [updateOutputEdges, setFirstEdge_some name st edges hmem hnd]
    have hnd₁ : ((edges.map (fun e => if e.edge = name then { e with status := st } else e)).map
        (·.edge)).Nodup := by
      rw [upd_map_names]; exact hnd
    have hall₁ : ∀ p ∈ rest,
        p.1 ∈ (edges.map (fun e => if e.edge = name then { e with status := st } else e)).map
          (·.edge) := by
      rw [upd_map_names]
      intro p hp
      exact hall p (List.mem_cons_of_mem _ hp)
    rw [ih _ hnd₁ hkeys.2 hall₁]
    congr 1
    rw [List.map_map]
    apply List.map_congr_left
    intro e _
    by_cases h : e.edge = name
    · have hb : (e.edge == name) = true := beq_iff_eq.mpr h
      have hrest : rest.lookup e.edge = none :=
        lookup_none_of_key_not_mem e.edge rest (h ▸ hkeys.1)
      simp only [Function.comp, if_pos h, List.lookup, hb, hrest]
    · have hb : (e.edge == name) = false := beq_eq_false_iff_ne.mpr h
      simp only [Function.comp, if_neg h, List.lookup, hb]

/-- C7: `_update_output_edges` raises a hard error whenever the worker's map names
    an edge absent from Edge_Status; otherwise (over well-formed tables: distinct
    edge names, distinct map keys) it returns Edge_Status with exactly the named
    edges set to their given statuses and every other entry unchanged. -/
theorem C7_update_output_edges (edges : List EdgeS) (m : List (String × String))
    (hnd : (edges.map (·.edge)).Nodup) (hkeys : (m.map (·.1)).Nodup) :
    ((∃ p ∈ m, p.1 ∉ edges.map (·.edge)) →
        ∃ msg, updateOutputEdges edges m = .error msg) ∧
    ((∀ p ∈ m, p.1 ∈ edges.map (·.edge)) →
        updateOutputEdges edges m =
          .ok (edges.map (fun e =>
            match m.lookup e.edge with
            | some s => { e with status := s }
            | none => e))) :=
  ⟨fun h => updateOutputEdges_error edges m h,
   fun h => updateOutputEdges_ok edges m hnd hkeys h⟩

/-- C7 witness: updating `eA_B` to enabled in the three-edge table. -/
theorem C7_witness :
    ((∃ p ∈ [("eA_B", "enabled")], p.1 ∉ edgesA.map (·.edge)) →
        ∃ msg, updateOutputEdges edgesA [("eA_B", "enabled")] = .error msg) ∧
    ((∀ p ∈ [("eA_B", "enabled")], p.1 ∈ edgesA.map (·.edge)) →
        updateOutputEdges edgesA [("eA_B", "enabled")] =
          .ok (edgesA.map (fun e =>
            match List.lookup e.edge [("eA_B", "enabled")] with
            | some s => { e with status := s }
            | none => e))) :=
  C7_update_output_edges edgesA [("eA_B", "enabled")] (by decide) (by decide)

/-! ## C9 — update_by_key / get_by_key round trip -/

lemma find?_append_some {α : Type} (l : List α) (p : α → Bool) (x : α)
    (hl : l.find? p = none) (hx : p x = true) : (l ++ [x]).find? p = some x := by
  induction l with
  | nil => simp [List.find?_cons, hx]
  | cons a as ih =>
    rw [List.find?_cons] at hl
    cases hpa : p a
    · rw [hpa] at hl
      rw [List.cons_append, List.find?_cons, hpa]
      exact ih hl
    · rw [hpa] at hl
      cases hl

/-- C9: after `update_data_by_key(key, payload)`, `get_data_by_key(key)` returns
    exactly that payload, whether a record with the key previously existed (it is
    replaced) or not (it is created). -/
theorem C9_update_then_get (α : Type) (st : MemStore α) (key : String) (data : α)
    (dataType desc : Option String) :
    getDataByKey (updateDataByKey st key data dataType desc) key = some data := by
  unfold updateDataByKey
  cases hfind : findOneByKey st key with
  | some ex =>
    unfold getDataByKey findOneByKey addData
    dsimp only
    rw [find?_append_some]
    · rfl
    · rw [List.find?_eq_none]
      intro r hr
      rw [List.mem_filter] at hr
      have h2 := hr.2
      simp only [decide_eq_true_eq] at h2 ⊢
      exact h2
    · simp
  | none =>
    unfold getDataByKey findOneByKey addData
    dsimp only
    rw [find?_append_some]
    · rfl
    · unfold findOneByKey at hfind
      exact hfind
    · simp

/-! ## C3 — terminal node shortcut -/

/-- C3 (amended): for a worker whose lowercased step name is "end" (and the caps
    the code runs with), `execute_step` makes no LLM call and returns exactly the
    verdict `{result: "The full TSG execution completed", status: "completed",
    set_edge_status: {}}` — the code's terminal result string, not "terminal". -/
theorem C3_end_shortcut (cfg : ExecConfig) (execAct : String → ActionParams → String)
    (stepName : String) (oracle : Nat → LLMTurn)
    (hend : pyLower stepName = "end") (hiter : 2 ≤ cfg.maxIterations) :
    executeStep cfg execAct stepName oracle =
      { verdict := { result := "The full TSG execution completed", status := "completed",
                     set_edge_status := some [] },
        log := [{ role := "assistant", content := endResponseRaw }],
        llmCalls := 0, iterations := 1 } := by
  unfold executeStep
  obtain ⟨f, hf⟩ : ∃ f, cfg.maxIterations - 1 = f + 1 := ⟨cfg.maxIterations - 2, by omega⟩
  rw [hf]
  have hbeq : (pyLower stepName == "end") = true := beq_iff_eq.mpr hend
  simp only [execLoopAux, loopBody, hbeq]
  rfl

/-- C3 counterexample: the end-node verdict's `result` text is
    "The full TSG execution completed", while the claim demands "terminal". -/
theorem C3_cx :
    (executeStep {} nullAct "end" malformedOracle).verdict.result =
      "The full TSG execution completed" ∧
    ("The full TSG execution completed" : String) ≠ "terminal" :=
  ⟨rfl, by decide⟩

/-- C3 witness: the shortcut evaluated at the default configuration. -/
theorem C3_witness :
    executeStep {} nullAct "end" malformedOracle =
      { verdict := { result := "The full TSG execution completed", status := "completed",
                     set_edge_status := some [] },
        log := [{ role := "assistant", content := endResponseRaw }],
        llmCalls := 0, iterations := 1 } :=
  C3_end_shortcut {} nullAct "end" malformedOracle (by decide) (by decide)

/-! ## C4 — JSON decode exhaustion -/

lemma llmRetry_malformed (oracle : Nat → LLMTurn) :
    ∀ (fuel k : Nat), 1 ≤ fuel →
      (∀ j, j < fuel → ∃ r, oracle (k + j) = .malformed r) →
      llmRetry oracle k fuel = (decodeFailedRaw, decodeFailedParsed, k + fuel) := by
  intro fuel
  induction fuel with
  | zero =>
    intro k h1 _
    exact absurd h1 (by omega)
  | succ f ih =>
    intro k h1 h2
    obtain ⟨r, hr⟩ := h2 0 (by omega)
    rw [Nat.add_zero] at hr
    simp only [llmRetry, hr]
    cases f with
    | zero => simp
    | succ f' =>
      have hne : ¬ (f' + 1 = 0) := by omega
      rw [if_neg hne]
      rw [ih (k + 1) (by omega) ?_]
      · have : k + 1 + (f' + 1) = k + (f' + 1 + 1) := by omega
        rw [this]
      · intro j hj
        obtain ⟨r', hr'⟩ := h2 (j + 1) (by omega)
        exact ⟨r', by rw [← hr']; congr 1; omega⟩

/-- C4 (amended): when every LLM answer of the first iteration fails JSON decoding
    for the full retry cap, the worker synthesizes a `finish_step` and returns the
    verdict `{result: "LLM response decoding failed", status: "failed",
    set_edge_status: {}}` — an EMPTY edge map, not one disabling the output edges;
    the output edges are then all disabled by the scheduler when it applies this
    failed verdict. -/
theorem C4_decode_exhaustion (cfg : ExecConfig) (execAct : String → ActionParams → String)
    (stepName : String) (oracle : Nat → LLMTurn)
    (nodes : List NodeS) (edges : List EdgeS) (nodeName : String)
    (hend : pyLower stepName ≠ "end") (hiter : 2 ≤ cfg.maxIterations)
    (hretry : 1 ≤ cfg.maxRetryNumber)
    (hmal : ∀ j, j < cfg.maxRetryNumber → ∃ r, oracle j = .malformed r) :
    executeStep cfg execAct stepName oracle =
      { verdict := { result := "LLM response decoding failed", status := "failed",
                     set_edge_status := some [] },
        log := [{ role := "assistant", content := decodeFailedRaw }],
        llmCalls := cfg.maxRetryNumber, iterations := 1 } ∧
    (∃ (ns : List NodeS) (es : List EdgeS),
       applyExecutorResult nodeName
         { result := "LLM response decoding failed", status := "failed",
           set_edge_status := some [] } nodes edges = .ok (ns, es) ∧
       ∀ nd ∈ nodes, nd.node = nodeName →
         ∀ e ∈ es, e.edge ∈ outputEdgeNames nd → e.status = "disabled") := by
  constructor
  · unfold executeStep
    obtain ⟨f, hf⟩ : ∃ f, cfg.maxIterations - 1 = f + 1 := ⟨cfg.maxIterations - 2, by omega⟩
    rw [hf]
    have hbeq : (pyLower stepName == "end") = false := beq_eq_false_iff_ne.mpr hend
    have hr := llmRetry_malformed oracle cfg.maxRetryNumber 0 hretry
      (by intro j hj; simpa using hmal j hj)
    simp only [execLoopAux, loopBody, hbeq, Bool.false_eq_true, if_false, hr, Nat.zero_add]
    rfl
  · obtain ⟨ns, es, hok, _, hprop⟩ := applyExecutorResult_failed nodeName
      { result := "LLM response decoding failed", status := "failed",
        set_edge_status := some [] } (by decide) nodes edges
    exact ⟨ns, es, hok, hprop⟩

/-- C4 counterexample: with three undecodable LLM answers, the worker's verdict
    carries an empty `set_edge_status`, so the output edge `eA_B` of `nodeA` is
    not disabled inside the verdict itself. -/
theorem C4_cx :
    (executeStep {} nullAct "step_A" malformedOracle).verdict =
      { result := "LLM response decoding failed", status := "failed",
        set_edge_status := some [] } ∧
    outputEdgeNames nodeA = ["eA_B"] ∧
    ("eA_B", "disabled") ∉ ([] : List (String × String)) :=
  ⟨rfl, rfl, by simp⟩

/-- C4 witness: the amended claim at the default caps, for node `step_A`. -/
theorem C4_witness :
    executeStep {} nullAct "step_A" malformedOracle =
      { verdict := { result := "LLM response decoding failed", status := "failed",
                     set_edge_status := some [] },
        log := [{ role := "assistant", content := decodeFailedRaw }],
        llmCalls := 3, iterations := 1 } ∧
    (∃ (ns : List NodeS) (es : List EdgeS),
       applyExecutorResult "step_A"
         { result := "LLM response decoding failed", status := "failed",
           set_edge_status := some [] } [nodeA] edgesA = .ok (ns, es) ∧
       ∀ nd ∈ [nodeA], nd.node = "step_A" →
         ∀ e ∈ es, e.edge ∈ outputEdgeNames nd → e.status = "disabled") :=
  C4_decode_exhaustion {} nullAct "step_A" malformedOracle [nodeA] edgesA "step_A"
    (by decide) (by decide) (by decide) (fun j _ => ⟨"not json", rfl⟩)

/-! ## C5 — iteration cap -/

lemma loopBody_next_of_parsed (execAct : String → ActionParams → String)
    (stepName : String) (oracle : Nat → LLMTurn) (maxRetry k : Nat)
    (raw : String) (resp : ParsedResponse)
    (hend : (pyLower stepName == "end") = false)
    (hor : oracle k = .parsed raw resp)
    (hfin : resp.action ≠ "finish_step")
    (hretry : 1 ≤ maxRetry) :
    ∃ entries, loopBody execAct stepName oracle maxRetry k = .next entries (k + 1) := by
  obtain ⟨f, hf⟩ : ∃ f, maxRetry = f + 1 := ⟨maxRetry - 1, by omega⟩
  subst hf
  have hbfin : (resp.action == "finish_step") = false := beq_eq_false_iff_ne.mpr hfin
  simp only [loopBody, hend, Bool.false_eq_true, if_false, llmRetry, hor, hbfin]
  by_cases hp : pyStartsWith resp.action "plugin_" = true
  · rw [if_pos hp]
    exact ⟨_, rfl⟩
  · rw [if_neg hp]
    exact ⟨_, rfl⟩

lemma execLoopAux_no_finish (execAct : String → ActionParams → String)
    (stepName : String) (oracle : Nat → LLMTurn) (maxRetry : Nat)
    (hend : (pyLower stepName == "end") = false)
    (hretry : 1 ≤ maxRetry)
    (hor : ∀ k, ∃ raw resp, oracle k = .parsed raw resp ∧ resp.action ≠ "finish_step") :
    ∀ fuel k iters log, ∃ log',
      execLoopAux execAct stepName oracle maxRetry fuel k iters log =
        { verdict := { result := "Step " ++ stepName
                         ++ " was executed, but no finish_step action was provided.",
                       status := "failed", set_edge_status := none },
          log := log', llmCalls := k + fuel, iterations := iters + fuel } := by
  intro fuel
  induction fuel with
  | zero =>
    intro k iters log
    exact ⟨log, by simp [execLoopAux]⟩
  | succ f ih =>
    intro k iters log
    obtain ⟨raw, resp, hork, hfin⟩ := hor k
    obtain ⟨entries, hb⟩ :=
      loopBody_next_of_parsed execAct stepName oracle maxRetry k raw resp hend hork hfin hretry
    obtain ⟨log', hrec⟩ := ih (k + 1) (iters + 1) (log ++ entries)
    refine ⟨log', ?_⟩
    simp only [execLoopAux, hb]
    rw [hrec]
    congr 1 <;> omega

/-- C5 (amended): whenever the LLM always answers with a parseable non-`finish_step`
    action, the ReAct loop runs exactly `max_iterations - 1` body iterations (9 at
    the default cap of 10, an off-by-one against the claim's "up to 10"), makes one
    LLM call per iteration, and then returns the fallback verdict: a diagnostic
    result message, status "failed", and `set_edge_status = None`. -/
theorem C5_iteration_cap (cfg : ExecConfig) (execAct : String → ActionParams → String)
    (stepName : String) (oracle : Nat → LLMTurn)
    (hend : pyLower stepName ≠ "end") (hretry : 1 ≤ cfg.maxRetryNumber)
    (hor : ∀ k, ∃ raw resp, oracle k = .parsed raw resp ∧ resp.action ≠ "finish_step") :
    (executeStep cfg execAct stepName oracle).iterations = cfg.maxIterations - 1 ∧
    (executeStep cfg execAct stepName oracle).llmCalls = cfg.maxIterations - 1 ∧
    (executeStep cfg execAct stepName oracle).verdict =
      { result := "Step " ++ stepName ++ " was executed, but no finish_step action was provided.",
        status := "failed", set_edge_status := none } := by
  obtain ⟨log', h⟩ := execLoopAux_no_finish execAct stepName oracle cfg.maxRetryNumber
    (beq_eq_false_iff_ne.mpr hend) hretry hor (cfg.maxIterations - 1) 0 0 []
  unfold executeStep
  rw [h]
  simp

/-- C5 counterexample: with an LLM that always picks `log_reasoning_tool`, the
    default-capped loop stops after 9 iterations — not 10 — and returns the
    fallback failed verdict. -/
theorem C5_cx :
    (executeStep {} nullAct "step_A" loopOracle).iterations = 9 ∧
    (executeStep {} nullAct "step_A" loopOracle).verdict =
      { result := "Step step_A was executed, but no finish_step action was provided.",
        status := "failed", set_edge_status := none } ∧
    (9 : Nat) < 10 :=
  ⟨rfl, by decide, by omega⟩

/-- C5 witness: the amended claim at the default caps. -/
theorem C5_witness :
    (executeStep {} nullAct "step_A" loopOracle).iterations = 9 ∧
    (executeStep {} nullAct "step_A" loopOracle).llmCalls = 9 ∧
    (executeStep {} nullAct "step_A" loopOracle).verdict =
      { result := "Step step_A was executed, but no finish_step action was provided.",
        status := "failed", set_edge_status := none } :=
  C5_iteration_cap {} nullAct "step_A" loopOracle (by decide) (by decide)
    (fun _ => ⟨"act", { action := "log_reasoning_tool" }, rfl, by decide⟩)

/-! ## C6 — deferred plugin → SQL dispatch -/

/-- C6: when the LLM answer at oracle index `k` parses to an action whose name
    begins with "plugin_", the loop body unconditionally records, in order: the
    assistant response, the plugin observation, the synthesized assistant message
    carrying the snippet id extracted from that observation, and the observation
    of the deferred `sql_query_tool` call on that snippet id — all within the same
    iteration, consuming no further LLM call. -/
theorem C6_plugin_deferred (execAct : String → ActionParams → String)
    (stepName : String) (oracle : Nat → LLMTurn) (maxRetry k : Nat)
    (raw : String) (resp : ParsedResponse)
    (hend : pyLower stepName ≠ "end")
    (hor : oracle k = .parsed raw resp)
    (hretry : 1 ≤ maxRetry)
    (hplug : pyStartsWith resp.action "plugin_" = true) :
    loopBody execAct stepName oracle maxRetry k =
      .next [{ role := "assistant", content := raw },
             { role := "user",
               content := "Observation: " ++ execAct resp.action resp.parameters },
             { role := "assistant",
               content := mkSqlFollowupMessage
                 (extractSnippetId (execAct resp.action resp.parameters)) stepName },
             { role := "user",
               content := "Observation: " ++ execAct "sql_query_tool"
                 (sqlFollowupParams (extractSnippetId (execAct resp.action resp.parameters))
                   stepName) }]
        (k + 1) := by
  have hfin : resp.action ≠ "finish_step" := by
    intro hc
    rw [hc] at hplug
    exact absurd hplug (by decide)
  have hbfin : (resp.action == "finish_step") = false := beq_eq_false_iff_ne.mpr hfin
  have hbend : (pyLower stepName == "end") = false :=
    beq_eq_false_iff_ne.mpr hend
  obtain ⟨f, hf⟩ : ∃ f, maxRetry = f + 1 := ⟨maxRetry - 1, by omega⟩
  subst hf
  simp only [loopBody, hbend, Bool.false_eq_true, if_false, llmRetry, hor, hbfin, hplug, if_true]
  rfl

/-- C6 witness: the deferred dispatch fired by `pluginOracle` for step `step_3`. -/
theorem C6_witness :
    loopBody nullAct "step_3" pluginOracle 3 0 =
      .next [{ role := "assistant", content := "raw_plugin" },
             { role := "user", content := "Observation: " },
             { role := "assistant", content := mkSqlFollowupMessage "" "step_3" },
             { role := "user", content := "Observation: " }]
        1 :=
  C6_plugin_deferred nullAct "step_3" pluginOracle 3 0 "raw_plugin" pluginResp
    (by decide) rfl (by omega) (by decide)

/-! ## C10 — plugin error message flows into the deferred SQL call -/

set_option maxRecDepth 40000 in
/-- C10: a plugin invocation missing a required parameter returns the error
    message itself and stores no snippet; the worker loop still fires the deferred
    `sql_query_tool` follow-up, the whole error message becomes the snippet id
    (splitting on the stored-ID prefix leaves the string intact), and the SQL tool
    answers with its snippet-not-found error. -/
theorem C10_plugin_error_chain :
    pluginToolExecute plugin1Required demoRender emptySnips [] = (c10ErrMsg, emptySnips) ∧
    extractSnippetId c10ErrMsg = c10ErrMsg ∧
    loopBody demoExecAct "step_2" c10Oracle 3 0 =
      .next [{ role := "assistant", content := "raw_c10" },
             { role := "user", content := "Observation: " ++ c10ErrMsg },
             { role := "assistant", content := mkSqlFollowupMessage c10ErrMsg "step_2" },
             { role := "user",
               content := "Observation: Error: SQL snippet with ID \x27" ++ c10ErrMsg
                 ++ "\x27 not found in memory." }]
        1 := by
  refine ⟨by decide, by decide, ?_⟩
  decide

/-! ## C8 — PlanDAG loading -/

lemma addEdgeRefs_inv : ∀ (refs : List EdgeRef) (st : List String × List EdgeS),
    edgeStateInv st →
    edgeStateInv (addEdgeRefs st refs) ∧
    (∀ x, x ∈ (addEdgeRefs st refs).2.map (·.edge) ↔
       x ∈ st.2.map (·.edge) ∨ (x ≠ "" ∧ x ∈ refs.map (·.edge))) := by
  intro refs
  induction refs with
  | nil =>
    intro st h
    refine ⟨h, fun x => ?_⟩
    simp [addEdgeRefs]
  | cons r rest ih =>
    intro st h
    have hstep : addEdgeRefs st (r :: rest) =
        addEdgeRefs (if r.edge ≠ "" ∧ r.edge ∉ st.1 then
            (r.edge :: st.1,
             st.2 ++ [{ edge := r.edge, status := "pending", condition := condOf r }])
          else st) rest := by
      simp [addEdgeRefs]
    rw [hstep]
    by_cases hc : r.edge ≠ "" ∧ r.edge ∉ st.1
    · rw [if_pos hc]
      obtain ⟨hnd, hmem, hpend⟩ := h
      have hinv' : edgeStateInv
          (r.edge :: st.1,
           st.2 ++ [{ edge := r.edge, status := "pending", condition := condOf r }]) := by
        refine ⟨?_, ?_, ?_⟩
        · simp only [List.map_append, List.map_cons, List.map_nil]
          rw [List.nodup_append]
          refine ⟨hnd, List.nodup_singleton _, ?_⟩
          rw [List.disjoint_singleton]
          exact fun hb => hc.2 ((hmem r.edge).mpr hb)
        · intro x
          simp only [List.map_append, List.map_cons, List.map_nil, List.mem_append,
            List.mem_cons, List.mem_singleton, List.not_mem_nil, or_false]
          rw [hmem x]
          tauto
        · intro e he
          rw [List.mem_append] at he
          rcases he with he | he
          · exact hpend e he
          · simp only [List.mem_singleton] at he
            subst he
            rfl
      obtain ⟨hinv'', hmem''⟩ := ih _ hinv'
      refine ⟨hinv'', fun x => ?_⟩
      rw [hmem'' x]
      simp only [List.map_append, List.map_cons, List.map_nil, List.mem_append,
        List.mem_singleton, List.not_mem_nil, or_false, List.mem_cons]
      constructor
      · rintro ((hx | hx) | hx)
        · exact Or.inl hx
        · exact Or.inr ⟨hx ▸ hc.1, Or.inl hx⟩
        · exact Or.inr ⟨hx.1, Or.inr hx.2⟩
      · rintro (hx | ⟨hxe, hx | hx⟩)
        · exact Or.inl (Or.inl hx)
        · exact Or.inl (Or.inr hx)
        · exact Or.inr ⟨hxe, hx⟩
    · rw [if_neg hc]
      push_neg at hc
      obtain ⟨hinv'', hmem''⟩ := ih st h
      refine ⟨hinv'', fun x => ?_⟩
      rw [hmem'' x]
      simp only [List.map_cons, List.mem_cons]
      constructor
      · rintro (hx | hx)
        · exact Or.inl hx
        · exact Or.inr ⟨hx.1, Or.inr hx.2⟩
      · rintro (hx | ⟨hxe, hx | hx⟩)
        · exact Or.inl hx
        · have hx1 : r.edge ∈ st.1 := hc (by rw [← hx]; exact hxe)
          exact Or.inl ((h.2.1 x).mp (by rw [hx]; exact hx1))
        · exact Or.inr ⟨hxe, hx⟩

lemma collect_fold_spec : ∀ (nodes : List PlanNode) (st : List String × List EdgeS),
    edgeStateInv st →
    edgeStateInv (nodes.foldl
      (fun st n => addEdgeRefs (addEdgeRefs st n.output_edges) n.input_edges) st) ∧
    (∀ x, x ∈ (nodes.foldl
        (fun st n => addEdgeRefs (addEdgeRefs st n.output_edges) n.input_edges) st).2.map
          (·.edge) ↔
       x ∈ st.2.map (·.edge) ∨ (x ≠ "" ∧ x ∈ referencedEdgeNames nodes)) := by
  intro nodes
  induction nodes with
  | nil =>
    intro st h
    refine ⟨h, fun x => ?_⟩
    simp [referencedEdgeNames]
  | cons n rest ih =>
    intro st h
    rw [List.foldl_cons]
    obtain ⟨h1, m1⟩ := addEdgeRefs_inv n.output_edges st h
    obtain ⟨h2, m2⟩ := addEdgeRefs_inv n.input_edges _ h1
    obtain ⟨h3, m3⟩ := ih _ h2
    refine ⟨h3, fun x => ?_⟩
    rw [m3 x, m2 x, m1 x]
    simp only [referencedEdgeNames, List.flatMap_cons, List.mem_append, List.map_append]
    tauto

lemma collectEdges_spec (nodes : List PlanNode) :
    ((collectEdges nodes).map (·.edge)).Nodup ∧
    (∀ e ∈ collectEdges nodes, e.status = "pending") ∧
    (∀ x, x ∈ (collectEdges nodes).map (·.edge) ↔
      (x ≠ "" ∧ x ∈ referencedEdgeNames nodes)) := by
  have hinv : edgeStateInv (([] : List String), ([] : List EdgeS)) := by
    refine ⟨List.nodup_nil, fun x => ?_, fun e he => absurd he (List.not_mem_nil e)⟩
    simp
  obtain ⟨⟨hnd, _, hpend⟩, hmem⟩ := collect_fold_spec nodes ([], []) hinv
  refine ⟨hnd, hpend, fun x => ?_⟩
  rw [show collectEdges nodes = (nodes.foldl
      (fun st n => addEdgeRefs (addEdgeRefs st n.output_edges) n.input_edges) ([], [])).2
    from rfl]
  rw [hmem x]
  simp

lemma enableFirst_as_map (name : String) (es : List EdgeS)
    (hnd : (es.map (·.edge)).Nodup) :
    enableFirst name es =
      es.map (fun e => if e.edge = name then { e with status := "enabled" } else e) := by
  induction es with
  | nil => rfl
  | cons e rest ih =>
    rw [List.map_cons, List.nodup_cons] at hnd
    simp only [enableFirst, List.map_cons]
    by_cases h : e.edge = name
    · rw [if_pos h, if_pos h, map_upd_noop name "enabled" rest (h ▸ hnd.1)]
    · rw [if_neg h, if_neg h, ih hnd.2]

lemma enableMem_map_names (names : List String) (es : List EdgeS) :
    (es.map (fun e => if e.edge ∈ names then { e with status := "enabled" } else e)).map
        (·.edge) = es.map (·.edge) := by
  induction es with
  | nil => rfl
  | cons e rest ih =>
    simp only [List.map_cons, ih]
    by_cases h : e.edge ∈ names
    · rw [if_pos h]
    · rw [if_neg h]

lemma enableFold_map (refs : List EdgeRef) (es : List EdgeS)
    (hnd : (es.map (·.edge)).Nodup) (hne : ∀ r ∈ refs, r.edge ≠ "") :
    refs.foldl (fun es r => if r.edge ≠ "" then enableFirst r.edge es else es) es =
      es.map (fun e =>
        if e.edge ∈ refs.map (·.edge) then { e with status := "enabled" } else e) := by
  induction refs generalizing es with
  | nil => simp
  | cons r rest ih =>
    rw [List.foldl_cons]
    rw [if_pos (hne r (List.mem_cons_self r rest))]
    rw [enableFirst_as_map r.edge es hnd]
    rw [ih (es.map (fun e => if e.edge = r.edge then { e with status := "enabled" } else e))
      (by rw [upd_map_names]; exact hnd)
      (fun q hq => hne q (List.mem_cons_of_mem r hq))]
    rw [List.map_map]
    apply List.map_congr_left
    intro e _
    simp only [Function.comp, List.map_cons, List.mem_cons]
    by_cases h1 : e.edge = r.edge
    · rw [if_pos h1]
      by_cases h2 : e.edge ∈ rest.map (·.edge)
      · rw [if_pos (show ({ e with status := "enabled" } : EdgeS).edge ∈ rest.map (·.edge)
            from h2),
            if_pos (Or.inl h1)]
      · rw [if_neg (show ({ e with status := "enabled" } : EdgeS).edge ∉ rest.map (·.edge)
            from h2),
            if_pos (Or.inl h1)]
    · rw [if_neg h1]
      by_cases h2 : e.edge ∈ rest.map (·.edge)
      · rw [if_pos h2, if_pos (Or.inr h2)]
      · rw [if_neg h2, if_neg (by rintro (hx | hx); exacts [h1 hx, h2 hx])]

lemma setFirstStartFinished_find : ∀ (nodes : List PlanNode) (st : PlanNode),
    nodes.find? (fun n => pyLower n.node == "start") = some st →
    ∃ m, ((setFirstStartFinished nodes).map toNodeS).find?
        (fun n => pyLower n.node == "start") = some m ∧
      m.status = "finished" ∧ m.node = st.node := by
  intro nodes
  induction nodes with
  | nil => intro st h; cases h
  | cons n rest ih =>
    intro st h
    by_cases hc : pyLower n.node = "start"
    · have hb : (pyLower n.node == "start") = true := beq_iff_eq.mpr hc
      rw [List.find?_cons, hb] at h
      have hn : n = st := by injection h
      subst hn
      refine ⟨toNodeS { n with status := some "finished" }, ?_, rfl, rfl⟩
      simp only [setFirstStartFinished, if_pos hc, List.map_cons, List.find?_cons, toNodeS]
      rw [hb]
    · have hb : (pyLower n.node == "start") = false := beq_eq_false_iff_ne.mpr hc
      rw [List.find?_cons, hb] at h
      obtain ⟨m, hm, hs, hname⟩ := ih st h
      refine ⟨m, ?_, hs, hname⟩
      simp only [setFirstStartFinished, if_neg hc, List.map_cons, List.find?_cons, toNodeS]
      rw [hb]
      exact hm

/-- C8: loading a PlanDAG that contains a start node and only nonempty edge names
    yields an Edge_Status whose edge-name set is exactly the union of all names
    referenced from any node's `input_edges` or `output_edges`, every entry
    pending except the start node's output edges which are enabled, and a
    Node_Status in which the start node's status is "finished". -/
theorem C8_load_plandag (nodes : List PlanNode) (st : PlanNode)
    (hstart : nodes.find? (fun n => pyLower n.node == "start") = some st)
    (hne : ∀ n ∈ nodes, ∀ r ∈ n.input_edges ++ n.output_edges, r.edge ≠ "") :
    ∃ (es : List EdgeS) (ns : List NodeS),
      loadPlanDag nodes = .ok (es, ns) ∧
      (∀ x, x ∈ es.map (·.edge) ↔ x ∈ referencedEdgeNames nodes) ∧
      (∀ e ∈ es,
        (e.edge ∈ st.output_edges.map (·.edge) → e.status = "enabled") ∧
        (e.edge ∉ st.output_edges.map (·.edge) → e.status = "pending")) ∧
      (∃ m, ns.find? (fun n => pyLower n.node == "start") = some m ∧
         m.status = "finished" ∧ m.node = st.node) := by
  obtain ⟨hnd, hpend, hmem⟩ := collectEdges_spec nodes
  have hstmem : st ∈ nodes := List.mem_of_find?_eq_some hstart
  have hneSt : ∀ r ∈ st.output_edges, r.edge ≠ "" := fun r hr =>
    hne st hstmem r (List.mem_append_right _ hr)
  have hmap : enableStartEdges st (collectEdges nodes) =
      (collectEdges nodes).map (fun e =>
        if e.edge ∈ st.output_edges.map (·.edge) then { e with status := "enabled" }
        else e) := by
    unfold enableStartEdges
    exact enableFold_map st.output_edges (collectEdges nodes) hnd hneSt
  have hload : loadPlanDag nodes = .ok
      (enableStartEdges st (collectEdges nodes),
       (setFirstStartFinished nodes).map toNodeS) := by
    unfold loadPlanDag
    rw [hstart]
  refine ⟨_, _, hload, ?_, ?_, ?_⟩
  · intro x
    rw [hmap, enableMem_map_names, hmem x]
    constructor
    · exact fun h => h.2
    · intro h
      refine ⟨?_, h⟩
      obtain ⟨n, hn, hx⟩ := List.mem_flatMap.mp h
      obtain ⟨r, hr, rfl⟩ := List.mem_map.mp hx
      apply hne n hn r
      rw [List.mem_append] at hr ⊢
      tauto
  · intro e he
    rw [hmap] at he
    rcases List.mem_map.mp he with ⟨e0, he0, rfl⟩
    by_cases h : e0.edge ∈ st.output_edges.map (·.edge)
    · rw [if_pos h]
      exact ⟨fun _ => rfl, fun hc => absurd h hc⟩
    · rw [if_neg h]
      exact ⟨fun hc => absurd hc h, fun _ => hpend e0 he0⟩
  · exact setFirstStartFinished_find nodes st hstart

/-- C8 witness: the seed plan `start → A → B → end`. -/
theorem C8_witness :
    ∃ (es : List EdgeS) (ns : List NodeS),
      loadPlanDag demoPlan = .ok (es, ns) ∧
      (∀ x, x ∈ es.map (·.edge) ↔ x ∈ referencedEdgeNames demoPlan) ∧
      (∀ e ∈ es,
        (e.edge ∈ demoStart.output_edges.map (·.edge) → e.status = "enabled") ∧
        (e.edge ∉ demoStart.output_edges.map (·.edge) → e.status = "pending")) ∧
      (∃ m, ns.find? (fun n => pyLower n.node == "start") = some m ∧
         m.status = "finished" ∧ m.node = demoStart.node) :=
  C8_load_plandag demoPlan demoStart (by decide) (by decide)

end StepFly
